import Mathlib

/-!
Verification development for the offline netvar dumper (src/src/main.rs).

The program has three parts, all embedded below:
* a pattern scanner (`Module::find_pattern`, main.rs:143-158) that compiles a
  whitespace-separated wildcard byte pattern into a `regex::bytes::Regex`
  (prefixed with the flags `(?s-u)` so that a dot matches every byte value)
  and returns the address of the first match inside the module's bytes;
* a module registry (`Module::new` and the `dl_iterate_phdr` callback,
  main.rs:122-141 and 161-181) computing each image's page-aligned size with
  u64 arithmetic;
* a structure walker (`ClientClassIterator::next`, the `Debug` instances for
  `RecvTable` / `RecvProp`, and the pipeline in `main`, main.rs:37-60, 78-87,
  218-226) that follows a singly-linked list of `ClientClass` nodes in foreign
  memory and renders each node's `RecvTable` tree.

Machine integers are embedded as `Nat` (with explicit `% 2^64` where u64
wrap-around matters) and `Int` (for the i32 fields). Foreign memory is a total
environment (`Heap`): address `0` is the null pointer, checked exactly where
the source checks it (`as_ref`), and a C-string pointer is embedded as the
string it points at. A `RecvProp` array pointer is addressed in element units,
so `m_pProps.add(i)` becomes `m_pProps + i`. The possibly non-terminating
traversals (linked list with `next` pointers, recursive `Debug` rendering of
nested tables) are embedded with explicit fuel: a `none` result at every fuel
means the source loops without terminating.
-/

namespace Netvar

/-! ## Pattern scanner (main.rs:143-158) -/

/-- One compiled byte matcher of the regex the source builds: a wildcard token
turns into `.` (under `(?s-u)`: any byte), everything else into an exact byte
of the (?-u) byte regex. -/
inductive Matcher where
  | any : Matcher
  | exact : Nat → Matcher
deriving DecidableEq

/-- Value of one hexadecimal digit, as `regex`'s `\xHH` escape accepts them. -/
def hexVal (c : Char) : Option Nat :=
  if '0' ≤ c ∧ c ≤ '9' then some (c.toNat - 48)
  else if 'a' ≤ c ∧ c ≤ 'f' then some (c.toNat - 87)
  else if 'A' ≤ c ∧ c ≤ 'F' then some (c.toNat - 55)
  else none

/-- Value of a big-endian string of hexadecimal digits. -/
def hexListVal (cs : List Char) : Nat :=
  cs.foldl (fun a c => 16 * a + ((hexVal c).getD 0)) 0

/-- Rust's `char::is_whitespace`, which `str::split_whitespace` splits on:
the Unicode `White_Space` property, i.e. U+0009..U+000D, U+0020, U+0085,
U+00A0, U+1680, U+2000..U+200A, U+2028, U+2029, U+202F, U+205F and U+3000. -/
def rustIsWhitespace (c : Char) : Bool :=
  c.toNat == 0x09 || c.toNat == 0x0A || c.toNat == 0x0B || c.toNat == 0x0C ||
  c.toNat == 0x0D || c.toNat == 0x20 || c.toNat == 0x85 || c.toNat == 0xA0 ||
  c.toNat == 0x1680 || (0x2000 ≤ c.toNat && c.toNat ≤ 0x200A) ||
  c.toNat == 0x2028 || c.toNat == 0x2029 || c.toNat == 0x202F ||
  c.toNat == 0x205F || c.toNat == 0x3000

/-- Accumulator pass of `splitWs`: maximal runs of characters that are not
Unicode whitespace, like Rust's `str::split_whitespace` used at main.rs:148. -/
def splitWsAux : List Char → List Char → List String
  | [], cur => if cur = [] then [] else [String.mk cur.reverse]
  | c :: cs, cur =>
    if rustIsWhitespace c then
      if cur = [] then splitWsAux cs []
      else String.mk cur.reverse :: splitWsAux cs []
    else splitWsAux cs (c :: cur)

/-- The token list `pattern.split_whitespace()` yields (main.rs:148). -/
def splitWs (s : String) : List String :=
  splitWsAux s.data []

/-- Compilation of a `\x{...}`-shaped piece, following `regex`'s braced hex
escape: the brace must close, the body must be non-empty hexadecimal, and in
`(?-u)` bytes mode the value must fit one byte. Characters after the closing
brace are further literal atoms; only alphanumeric ones (always literals in a
regex) are inside the modelled fragment, a tail holding a regex metacharacter
is outside it and mapped to `none` (no pattern of the program or of the claims
carries one). -/
def compileBraced (cs : List Char) : Option (List Matcher) :=
  match cs.dropWhile (fun c => c ≠ '}') with
  | '}' :: tail =>
    let body := cs.takeWhile (fun c => c ≠ '}')
    if body ≠ [] ∧ body.all (fun c => (hexVal c).isSome) ∧ hexListVal body ≤ 255
        ∧ tail.all Char.isAlphanum then
      some (Matcher.exact (hexListVal body) :: tail.map (fun c => Matcher.exact c.toNat))
    else none
  | _ => none

/-- Compilation of one whitespace-separated token (main.rs:148-151): `?` and
`??` become `.`; any other token `x` becomes the regex piece `\x{x}` appended
to the pattern, i.e. a `\x` hex escape read off the token's first characters.
`regex` requires `\x` to be followed by exactly two hexadecimal digits or a
braced escape; whatever follows is parsed as further atoms (alphanumeric
characters are literals; a token whose tail holds a regex metacharacter is
outside the modelled fragment and mapped to `none` — no pattern of the
program or of the claims carries one). A token that fails to parse makes
`Regex::new` fail, which `find_pattern` turns into `None` via `.ok()?`. -/
def compileToken (t : String) : Option (List Matcher) :=
  if t = "?" ∨ t = "??" then some [Matcher.any]
  else
    match t.data with
    | [] => none
    | [_] => none
    | c₁ :: c₂ :: rest =>
      if c₁ = '{' then compileBraced (c₂ :: rest)
      else
        match hexVal c₁, hexVal c₂ with
        | some h, some l =>
          if rest.all Char.isAlphanum then
            some (Matcher.exact (16 * h + l) :: rest.map (fun c => Matcher.exact c.toNat))
          else none
        | _, _ => none

/-- Compilation of the whole token list into the byte-matcher sequence of the
regex `(?s-u)` ++ pieces (main.rs:147-153 with `Regex::new` at 156): the
pattern compiles iff every token does. -/
def compilePattern (toks : List String) : Option (List Matcher) :=
  (toks.mapM compileToken).map List.flatten

/-- Whether one compiled matcher accepts a byte. -/
def matcherMatches : Matcher → Nat → Bool
  | Matcher.any, _ => true
  | Matcher.exact v, b => b == v

/-- Whether the matcher sequence matches at the front of the byte list (the
regex made of single-byte matchers matches a window here). -/
def matchesFront : List Matcher → List Nat → Bool
  | [], _ => true
  | _ :: _, [] => false
  | m :: ms, b :: bs => matcherMatches m b && matchesFront ms bs

/-- Leftmost search of `Regex::find` (main.rs:156) over the byte list: the
first start offset, scanning left to right, where the matcher sequence
matches. -/
def scanFrom (ms : List Matcher) : List Nat → Nat → Option Nat
  | [], i => if matchesFront ms [] then some i else none
  | b :: rest, i =>
    if matchesFront ms (b :: rest) then some i
    else scanFrom ms rest (i + 1)

/-- The `Module` record of main.rs:10-15. -/
structure Module where
  address : Nat
  size : Nat
  name : String
deriving DecidableEq

/-- The byte slice `std::slice::from_raw_parts(self.address as *const u8,
self.size)` of main.rs:154-155: `mem` is the process memory, one byte per
address. -/
def moduleSlice (mem : Nat → Nat) (m : Module) : List Nat :=
  (List.range m.size).map (fun i => mem (m.address + i))

/-- `Module::find_pattern` (main.rs:143-158): compile the whitespace-separated
pattern (a failed compilation is `None` through `.ok()?`), search the module's
byte slice for the first match, and return `self.address + offset` of that
match. -/
def Module.find_pattern (mem : Nat → Nat) (m : Module) (pattern : String) : Option Nat :=
  match compilePattern (splitWs pattern) with
  | none => none
  | some ms => (scanFrom ms (moduleSlice mem m) 0).map (fun off => m.address + off)

/-! ## Module registry (main.rs:122-141, 161-181) -/

/-- The u64 modulus of the registry's arithmetic. -/
def two64 : Nat := 2 ^ 64

/-- One ELF program header as `Module::new` reads it: `p_vaddr` and `p_memsz`
are u64 values; `p_type` is carried along because the spec's algorithm filters
on it (`PT_LOAD` is 1), while the source never reads it. -/
structure Phdr where
  p_type : Nat
  p_vaddr : Nat
  p_memsz : Nat
deriving DecidableEq

/-- One `dl_phdr_info` entry: base address, the name the `CStr` at `dlpi_name`
holds (`none` embeds a name whose bytes are not valid UTF-8, where
`to_str().ok()?` bails out), and the program header array
`dlpi_phdr[0..dlpi_phnum]`. -/
structure DlPhdrInfo where
  dlpi_addr : Nat
  dlpi_name : Option String
  dlpi_phdrs : List Phdr
deriving DecidableEq

/-- The alignment expression `(a + pagesize - 1) & !(pagesize - 1)` of
main.rs:134 in u64 arithmetic: sums wrap at `2^64` and `!x` is the 64-bit
complement `(2^64 - 1) - x`. -/
def alignPage (a ps : Nat) : Nat :=
  ((a + ps - 1) % two64) &&& ((two64 - 1) - ((ps - 1) % two64))

/-- `Iterator::max`: `none` on an empty sequence, otherwise the maximum
value. -/
def iterMax? : List Nat → Option Nat
  | [] => none
  | a :: as =>
    match iterMax? as with
    | none => some a
    | some m => some (max a m)

/-- `Module::new` (main.rs:123-141): bail out (`None`) when the name is
unreadable; map every program header — with no filter on its type — to the
page-aligned end `align(p_vaddr + p_memsz)`; take the maximum, which is `None`
exactly when the header list is empty (`Iterator::max` on an empty iterator). -/
def Module.new (info : DlPhdrInfo) (ps : Nat) : Option Module :=
  match info.dlpi_name with
  | none => none
  | some nm =>
    match iterMax? (info.dlpi_phdrs.map
        (fun e => alignPage ((e.p_vaddr + e.p_memsz) % two64) ps)) with
    | none => none
    | some size => some { address := info.dlpi_addr, size := size, name := nm }

/-- The `dl_iterate_phdr` loop driving `callback` (main.rs:161-181, 195):
each resolvable image is prepended to the context (`modules.insert(0, m)`) and
the callback returns 0; an unresolvable image makes the callback return 1,
which stops `dl_iterate_phdr` — the images after it are never visited and the
context accumulated so far is the result. -/
def enumerateModules (ps : Nat) : List DlPhdrInfo → List Module → List Module
  | [], ctx => ctx
  | info :: rest, ctx =>
    match Module.new info ps with
    | some m => enumerateModules ps rest (m :: ctx)
    | none => ctx

/-- Page rounding as the spec's §4.1 words it: `roundUpToPage(v)` is the least
multiple of the page size at or above `v` (exact arithmetic, no wrap). -/
def roundUpToPage (a ps : Nat) : Nat :=
  ((a + ps - 1) / ps) * ps

/-- Size computation following the SPEC's words (§4.1), for comparison with
`Module.new`: "iterate its program-header-equivalent segment descriptors,
filter to those that are loadable, and compute size as max over segments of
roundUpToPage(virtualAddress + memorySize)". -/
def specLoadableSize (info : DlPhdrInfo) (ps : Nat) : Option Nat :=
  iterMax? ((info.dlpi_phdrs.filter (fun e => e.p_type = 1)).map
    (fun e => roundUpToPage (e.p_vaddr + e.p_memsz) ps))

/-! ## Structure walker (main.rs:26-107, 218-226) -/

/-- The `ClientClass` node layout (main.rs:62-72). Pointer fields are
addresses with 0 the null pointer; the network-name pointer is embedded as the
string it points at. The two function-pointer fields are never read by the
walker and are carried as plain addresses. -/
structure ClientClassM where
  m_pCreateFn : Nat
  m_pCreateEventFn : Nat
  m_pNetworkName : String
  m_pRecvTable : Nat
  m_pNext : Nat
  m_ClassID : Int

/-- The `RecvTable` layout (main.rs:26-35): `m_pProps` is the address of the
property array (element-unit addressing, so `m_pProps.add(i)` is
`m_pProps + i`), `m_nProps` the declared i32 count, and the net-table-name
pointer is embedded as the string it points at. -/
structure RecvTableM where
  m_pProps : Nat
  m_nProps : Int
  m_pDecoder : Nat
  m_pNetTableName : String
  m_bInitialized : Bool
  m_bInMainList : Bool

/-- The `RecvProp` layout (main.rs:89-107): the var-name pointer is embedded
as the string it points at; `m_pDataTable` is an address (0 = null); the other
pointer fields are never dereferenced by the walker. -/
structure RecvPropM where
  m_pVarName : String
  m_RecvType : Int
  m_Flags : Int
  m_StringBufferSize : Int
  m_bInsideArray : Bool
  m_pExtraData : Nat
  m_pArrayProp : Nat
  m_ArrayLengthProxy : Nat
  m_ProxyFn : Nat
  m_DataTableProxyFn : Nat
  m_pDataTable : Nat
  m_Offset : Int
  m_ElementStride : Int
  m_nElements : Int
  m_pParentArrayPropName : Nat

/-- The foreign memory the walker reads: what lives at every address, one
total environment per structure kind (`ClientClass` nodes, `RecvTable`
records, `RecvProp` array slots). Address 0 is the null pointer and is checked
exactly where the source calls `as_ref()`. -/
structure Heap where
  classes : Nat → ClientClassM
  tables : Nat → RecvTableM
  props : Nat → RecvPropM

/-- The addresses `ClientClassIterator` yields (main.rs:74-87) starting from
`cur`, with fuel: the iterator yields the current non-null node and moves to
`m_pNext`, stopping only at null. `none` means the fuel ran out before a null
`next` was reached — at every fuel, the source's iteration has not finished. -/
def classChain (H : Heap) : Nat → Nat → Option (List Nat)
  | _, 0 => some []
  | 0, _ + 1 => none
  | fuel + 1, cur + 1 =>
    (classChain H fuel (H.classes (cur + 1)).m_pNext).map (fun rest => (cur + 1) :: rest)

/-- The collection pipeline of `main` (main.rs:218-223): walk the list, pair
each node with its `m_pRecvTable`, and keep only the nodes whose table pointer
is non-null (`filter_map(|(c, r)| r.and_then(..))` drops the others). -/
def collectClasses (H : Heap) (fuel start : Nat) : Option (List (Nat × Nat)) :=
  (classChain H fuel start).map (fun l =>
    l.filterMap (fun c =>
      let t := (H.classes c).m_pRecvTable
      if t = 0 then none else some (c, t)))

/-- One rendered `RecvProp` of the recursive `Debug` output (main.rs:49-59):
a property without a data table shows name and offset; one with a data table
shows name, offset, the table's name and the rendered table. -/
inductive RProp where
  | scalar : String → Int → RProp
  | nested : String → Int → String → List RProp → RProp

/-- The property references `Debug for RecvTable` collects (main.rs:42-44):
`(0..m_nProps)` — empty when the i32 count is non-positive — mapped through
`m_pProps.add(i).as_ref()`, which drops only the null address. -/
def tablePropRefs (H : Heap) (t : Nat) : List RecvPropM :=
  let tb := H.tables t
  (List.range tb.m_nProps.toNat).filterMap (fun i =>
    if tb.m_pProps + i = 0 then none else some (H.props (tb.m_pProps + i)))

/-- Rendering of one property list by `Debug for RecvProp` (main.rs:49-59),
with `child` the renderer for a nested table: a null `m_pDataTable` renders as
a scalar; a non-null one reads the child table's name and renders the child
table recursively. `none` propagates a child whose rendering did not finish. -/
def renderPropsAux (H : Heap) (child : Nat → Option (List RProp)) :
    List RecvPropM → Option (List RProp)
  | [] => some []
  | p :: ps =>
    match (if p.m_pDataTable = 0 then some (RProp.scalar p.m_pVarName p.m_Offset)
           else (child p.m_pDataTable).map (fun sub =>
             RProp.nested p.m_pVarName p.m_Offset
               (H.tables p.m_pDataTable).m_pNetTableName sub)) with
    | none => none
    | some r => (renderPropsAux H child ps).map (fun rest => r :: rest)

/-- Rendering of one `RecvTable` by its `Debug` instance (main.rs:37-47),
with fuel for the unbounded mutual recursion through `Debug for RecvProp`:
`none` at every fuel means the source's recursion never terminates. -/
def renderTable (H : Heap) : Nat → Nat → Option (List RProp)
  | 0, _ => none
  | fuel + 1, t => renderPropsAux H (fun a => renderTable H fuel a) (tablePropRefs H t)

/-- Rendering of the final `println!("{:#?}", classes)` (main.rs:225): each
collected `(class, table)` pair shows the class node (whose derived `Debug`
prints raw field values, here stood for by the address) and the rendered
table. -/
def renderAll (H : Heap) (fuel : Nat) (cs : List (Nat × Nat)) :
    Option (List (Nat × List RProp)) :=
  cs.mapM (fun p => (renderTable H fuel p.2).map (fun r => (p.1, r)))

/-- The linked-list traversal never finishes: at every fuel the iteration
has not reached a null `next`. -/
def neverCompletesChain (H : Heap) (s : Nat) : Prop :=
  ∀ fuel, classChain H fuel s = none

/-- The recursive table rendering never finishes: at every fuel it has not
terminated. -/
def neverCompletesTable (H : Heap) (t : Nat) : Prop :=
  ∀ fuel, renderTable H fuel t = none

/-! ## Spec-side predicates -/

/-- The byte a token denotes when it is exactly two hexadecimal digits — the
spec's human-writable "two-hex-digit byte" token. -/
def hexPair? (t : String) : Option Nat :=
  match t.data with
  | [c₁, c₂] =>
    match hexVal c₁, hexVal c₂ with
    | some h, some l => some (16 * h + l)
    | _, _ => none
  | _ => none

/-- The byte sequence a list of two-hex-digit tokens denotes. -/
def patBytes (toks : List String) : List Nat :=
  toks.map (fun t => (hexPair? t).getD 0)

/-- The matcher a well-formed token denotes: wildcard tokens match any byte,
a two-hex-digit token matches exactly its byte. -/
def tokMatcher (t : String) : Matcher :=
  if t = "?" ∨ t = "??" then Matcher.any else Matcher.exact ((hexPair? t).getD 0)

/-- The byte sequence `pat` occurs in `buf` at offset `i`. -/
def occursAt (pat buf : List Nat) (i : Nat) : Prop :=
  i + pat.length ≤ buf.length ∧ (buf.drop i).take pat.length = pat

instance (pat buf : List Nat) (i : Nat) : Decidable (occursAt pat buf i) :=
  inferInstanceAs (Decidable (_ ∧ _))

/-- The spec's reading of one matcher: a wildcard position matches any byte
value, a non-wildcard position matches exactly its byte. -/
def wildMatchesP : Matcher → Nat → Prop
  | Matcher.any, _ => True
  | Matcher.exact v, b => b = v

instance : (m : Matcher) → (b : Nat) → Decidable (wildMatchesP m b)
  | Matcher.any, _ => Decidable.isTrue trivial
  | Matcher.exact v, b => inferInstanceAs (Decidable (b = v))

/-- The matcher sequence matches `buf` at position `i`: the window fits and
every matcher accepts its byte. -/
def specMatchesAt (ms : List Matcher) (buf : List Nat) (i : Nat) : Prop :=
  i + ms.length ≤ buf.length ∧
    ∀ j < ms.length, wildMatchesP (ms.getD j Matcher.any) (buf.getD (i + j) 0)

instance (ms : List Matcher) (buf : List Nat) (i : Nat) :
    Decidable (specMatchesAt ms buf i) :=
  inferInstanceAs (Decidable (_ ∧ _))

/-- Names of a rendered property tree's top level, for comparing rendered
outputs. -/
def rpropName : RProp → String
  | RProp.scalar n _ => n
  | RProp.nested n _ _ _ => n

/-- Top-level property names of a full rendered output. -/
def topNames (o : Option (List (Nat × List RProp))) : Option (List (List String)) :=
  o.map (fun l => l.map (fun p => p.2.map rpropName))

/-! ## Concrete data for witnesses and counterexamples -/

/-- Process memory holding `bytes` from address `base` on (zero elsewhere). -/
def memOf (base : Nat) (bytes : List Nat) : Nat → Nat :=
  fun a => bytes.getD (a - base) 0

/-- A module window of six bytes at address 16. -/
def modA : Module := ⟨16, 6, "client_panorama_client.so"⟩

/-- The buffer `AA BB 01 02 CC DD` of the spec's end-to-end example. -/
def memA : Nat → Nat := memOf 16 [0xAA, 0xBB, 0x01, 0x02, 0xCC, 0xDD]

/-- A module window of five bytes at address 16. -/
def modB : Module := ⟨16, 5, "client_panorama_client.so"⟩

/-- The buffer `AA BB 01 02 CE` of the spec's end-to-end example. -/
def memB : Nat → Nat := memOf 16 [0xAA, 0xBB, 0x01, 0x02, 0xCE]

/-- The default (unmapped) `ClientClass` content of the concrete heaps. -/
def dClass : ClientClassM := ⟨0, 0, "", 0, 0, 0⟩

/-- The default (unmapped) `RecvTable` content of the concrete heaps. -/
def dTable : RecvTableM := ⟨0, 0, 0, "", false, false⟩

/-- The default (unmapped) `RecvProp` content of the concrete heaps. -/
def dProp : RecvPropM := ⟨"", 0, 0, 0, false, 0, 0, 0, 0, 0, 0, 0, 0, 0, 0⟩

/-- A scalar property (null `m_pDataTable`) with a name and an offset. -/
def mkScalar (nm : String) (off : Int) : RecvPropM :=
  ⟨nm, 0, 0, 0, false, 0, 0, 0, 0, 0, 0, off, 0, 0, 0⟩

/-- A property pointing at a child table `t`. -/
def mkNested (nm : String) (off : Int) (t : Nat) : RecvPropM :=
  ⟨nm, 0, 0, 0, false, 0, 0, 0, 0, 0, t, off, 0, 0, 0⟩

/-- A well-formed three-node list at addresses 1 → 2 → 3, every node with a
null `m_pRecvTable`. -/
def heap3 : Heap where
  classes := fun n =>
    if n = 1 then ⟨0, 0, "A", 0, 2, 1⟩
    else if n = 2 then ⟨0, 0, "B", 0, 3, 2⟩
    else if n = 3 then ⟨0, 0, "C", 0, 0, 3⟩
    else dClass
  tables := fun _ => dTable
  props := fun _ => dProp

/-- A corrupted heap: the class list cycles 1 → 2 → 1, and the child-table
pointers cycle A → B → A (table 10's single property points at table 11,
whose single property points back at table 10). -/
def heapCyc : Heap where
  classes := fun n =>
    if n = 1 then ⟨0, 0, "A", 10, 2, 1⟩
    else if n = 2 then ⟨0, 0, "B", 11, 1, 2⟩
    else dClass
  tables := fun n =>
    if n = 10 then ⟨100, 1, 0, "DT_A", true, true⟩
    else if n = 11 then ⟨101, 1, 0, "DT_B", true, true⟩
    else dTable
  props := fun n =>
    if n = 100 then mkNested ("m_a") 0 11
    else if n = 101 then mkNested ("m_b") 0 10
    else dProp

/-- A second corrupted heap, for the witness: the class at 5 is its own
successor, and the child tables 20 and 21 point at each other. -/
def heapCycW : Heap where
  classes := fun n =>
    if n = 5 then ⟨0, 0, "E", 20, 5, 5⟩
    else dClass
  tables := fun n =>
    if n = 20 then ⟨200, 1, 0, "DT_E", true, true⟩
    else if n = 21 then ⟨201, 1, 0, "DT_F", true, true⟩
    else dTable
  props := fun n =>
    if n = 200 then mkNested ("m_e") 0 21
    else if n = 201 then mkNested ("m_f") 0 20
    else dProp

/-- A heap where table 10 declares 4 properties but owns only the two slots
100-101; slots 102-103 are the storage of its sibling table 11 (declared
count 2). All properties are scalars. -/
def heap6 : Heap where
  classes := fun n =>
    if n = 1 then ⟨0, 0, "A", 10, 2, 1⟩
    else if n = 2 then ⟨0, 0, "B", 11, 0, 2⟩
    else dClass
  tables := fun n =>
    if n = 10 then ⟨100, 4, 0, "DT_A", true, true⟩
    else if n = 11 then ⟨102, 2, 0, "DT_B", true, true⟩
    else dTable
  props := fun n =>
    if n = 100 then mkScalar ("p0") 0
    else if n = 101 then mkScalar ("p1") 4
    else if n = 102 then mkScalar ("q0") 8
    else if n = 103 then mkScalar ("q1") 12
    else dProp

/-- A heap with one class at 1 whose table 10 has a single scalar property
named `m_iHealth` at slot 100. -/
def heap9a : Heap where
  classes := fun n => if n = 1 then ⟨0, 0, "CA", 10, 0, 1⟩ else dClass
  tables := fun n => if n = 10 then ⟨100, 1, 0, "DT_CA", true, true⟩ else dTable
  props := fun n => if n = 100 then mkScalar ("m_iHealth") 42 else dProp

/-- The same heap as `heap9a` except that the bytes of the property name at
slot 100 now read `m_iArmor`: the class list and every pointer the walk reads
are unchanged. -/
def heap9b : Heap where
  classes := fun n => if n = 1 then ⟨0, 0, "CA", 10, 0, 1⟩ else dClass
  tables := fun n => if n = 10 then ⟨100, 1, 0, "DT_CA", true, true⟩ else dTable
  props := fun n => if n = 100 then mkScalar ("m_iArmor") 42 else dProp

/-- An image with no program headers at all: `Iterator::max` over the empty
segment list is `None`, so `Module::new` fails on it. -/
def infoBad : DlPhdrInfo := ⟨0, some (""), []⟩

/-- A resolvable image: one loadable segment of memory size 0x1800 at virtual
address 0. -/
def infoGood : DlPhdrInfo := ⟨4096, some ("libgood.so"), [⟨1, 0, 0x1800⟩]⟩

/-- A second resolvable image. -/
def infoGood2 : DlPhdrInfo := ⟨65536, some ("libother.so"), [⟨1, 0, 0x800⟩]⟩

/-- The module `Module::new` produces for `infoGood` at page size 4096. -/
def modGood : Module := ⟨4096, 0x2000, "libgood.so"⟩

/-- An image whose loadable segment ends at 0x800 while a non-loadable
segment (p_type 2) ends at 0x5800: the loadable-only maximum is one page,
the all-segments maximum is six pages. -/
def infoMixed : DlPhdrInfo := ⟨8192, some ("libmixed.so"), [⟨1, 0, 0x800⟩, ⟨2, 0x5000, 0x800⟩]⟩

/-! ## Scanner lemmas -/

lemma wildMatchesP_iff (m : Matcher) (b : Nat) :
    wildMatchesP m b ↔ matcherMatches m b = true := by
  cases m <;> simp [wildMatchesP, matcherMatches]

lemma matchesFront_iff_getD : ∀ (ms : List Matcher) (bs : List Nat),
    matchesFront ms bs = true ↔
      ms.length ≤ bs.length ∧
        ∀ j < ms.length, wildMatchesP (ms.getD j Matcher.any) (bs.getD j 0)
  | [], bs => by simp [matchesFront]
  | _ :: _, [] => by simp [matchesFront]
  | m :: ms, b :: bs => by
    rw [matchesFront, Bool.and_eq_true, matchesFront_iff_getD ms bs]
    constructor
    · rintro ⟨h1, h2, h3⟩
      refine ⟨by simpa using h2, ?_⟩
      intro j hj
      cases j with
      | zero => simpa [wildMatchesP_iff] using h1
      | succ j =>
        simpa using h3 j (by simpa using hj)
    · rintro ⟨h1, h2⟩
      refine ⟨?_, by simpa using h1, ?_⟩
      · simpa [wildMatchesP_iff] using h2 0 (by simp)
      · intro j hj
        simpa using h2 (j + 1) (by simpa using hj)

lemma matchesFront_exact : ∀ (pat : List Nat) (bs : List Nat),
    matchesFront (pat.map Matcher.exact) bs = true ↔
      pat.length ≤ bs.length ∧ bs.take pat.length = pat
  | [], bs => by simp [matchesFront]
  | _ :: _, [] => by simp [matchesFront]
  | p :: ps, b :: bs => by
    rw [List.map_cons, matchesFront, Bool.and_eq_true, matchesFront_exact ps bs]
    simp only [matcherMatches, beq_iff_eq, List.length_cons, List.take_succ_cons,
      List.cons.injEq, Nat.add_le_add_iff_right]
    constructor
    · rintro ⟨h1, h2, h3⟩
      exact ⟨h2, h1, h3⟩
    · rintro ⟨h1, h2, h3⟩
      exact ⟨h2, h1, h3⟩

lemma scanFrom_eq_some (ms : List Matcher) : ∀ (bs : List Nat) (i r : Nat),
    scanFrom ms bs i = some r ↔
      ∃ d, d ≤ bs.length ∧ matchesFront ms (bs.drop d) = true ∧
        (∀ e < d, matchesFront ms (bs.drop e) = false) ∧ r = i + d
  | [], i, r => by
    rw [scanFrom]
    by_cases h : matchesFront ms [] = true
    · rw [if_pos h, Option.some_inj]
      constructor
      · rintro rfl
        exact ⟨0, Nat.le_refl 0, by simpa using h,
          fun e he => absurd he (Nat.not_lt_zero e), by omega⟩
      · rintro ⟨d, hd, hm, hmin, rfl⟩
        obtain rfl : d = 0 := by simpa using hd
        omega
    · rw [if_neg h]
      rw [Bool.not_eq_true] at h
      constructor
      · intro he
        simp at he
      · rintro ⟨d, hd, hm, hmin, rfl⟩
        obtain rfl : d = 0 := by simpa using hd
        rw [List.drop_nil, h] at hm
        simp at hm
  | b :: bs, i, r => by
    rw [scanFrom]
    by_cases h : matchesFront ms (b :: bs) = true
    · rw [if_pos h, Option.some_inj]
      constructor
      · rintro rfl
        exact ⟨0, Nat.zero_le _, by simpa using h,
          fun e he => absurd he (Nat.not_lt_zero e), by omega⟩
      · rintro ⟨d, hd, hm, hmin, rfl⟩
        cases d with
        | zero => omega
        | succ d =>
          have h0 := hmin 0 (Nat.succ_pos d)
          rw [List.drop_zero, h] at h0
          simp at h0
    · rw [if_neg h]
      rw [Bool.not_eq_true] at h
      rw [scanFrom_eq_some ms bs (i + 1) r]
      constructor
      · rintro ⟨d, hd, hm, hmin, rfl⟩
        refine ⟨d + 1, by simpa using Nat.succ_le_succ hd, by simpa using hm, ?_, by omega⟩
        intro e he
        cases e with
        | zero => simpa using h
        | succ e =>
          have he' := hmin e (by omega)
          simpa using he'
      · rintro ⟨d, hd, hm, hmin, rfl⟩
        cases d with
        | zero =>
          rw [List.drop_zero, h] at hm
          simp at hm
        | succ d =>
          refine ⟨d, by simpa using hd, by simpa using hm, ?_, by omega⟩
          intro e he
          have he' := hmin (e + 1) (by omega)
          simpa using he'

lemma scanFrom_eq_none (ms : List Matcher) : ∀ (bs : List Nat) (i : Nat),
    scanFrom ms bs i = none ↔ ∀ d ≤ bs.length, matchesFront ms (bs.drop d) = false
  | [], i => by
    rw [scanFrom]
    by_cases h : matchesFront ms [] = true
    · rw [if_pos h]
      constructor
      · intro he
        simp at he
      · intro hall
        have h0 := hall 0 (Nat.le_refl 0)
        rw [List.drop_nil, h] at h0
        simp at h0
    · rw [if_neg h]
      rw [Bool.not_eq_true] at h
      constructor
      · intro _ d hd
        obtain rfl : d = 0 := by simpa using hd
        rw [List.drop_nil]
        exact h
      · intro _
        rfl
  | b :: bs, i => by
    rw [scanFrom]
    by_cases h : matchesFront ms (b :: bs) = true
    · rw [if_pos h]
      constructor
      · intro he
        simp at he
      · intro hall
        have h0 := hall 0 (Nat.zero_le _)
        rw [List.drop_zero, h] at h0
        simp at h0
    · rw [if_neg h]
      rw [Bool.not_eq_true] at h
      rw [scanFrom_eq_none ms bs (i + 1)]
      constructor
      · intro hall d hd
        cases d with
        | zero =>
          rw [List.drop_zero]
          exact h
        | succ d =>
          have hd' := hall d (by simpa using hd)
          simpa using hd'
      · intro hall d hd
        have hd' := hall (d + 1) (by simpa using Nat.succ_le_succ hd)
        simpa using hd'

/-! ## Token compilation lemmas -/

lemma hexPair_not_wild {t : String} {b : Nat} (h : hexPair? t = some b) :
    ¬(t = "?" ∨ t = "??") := by
  rintro (rfl | rfl) <;> simp [hexPair?, hexVal] at h

lemma compileToken_wild {t : String} (h : t = "?" ∨ t = "??") :
    compileToken t = some [Matcher.any] := by
  unfold compileToken
  rw [if_pos h]

lemma hexPair_eq {t : String} {b : Nat} (h : hexPair? t = some b) :
    ∃ c₁ c₂ hv lv, t.data = [c₁, c₂] ∧ hexVal c₁ = some hv ∧ hexVal c₂ = some lv
      ∧ b = 16 * hv + lv := by
  unfold hexPair? at h
  split at h
  · rename_i c₁ c₂ heq
    split at h
    · rename_i hv lv h₁ h₂
      exact ⟨c₁, c₂, hv, lv, heq, h₁, h₂, (Option.some_inj.mp h).symm⟩
    · simp at h
  · simp at h

lemma compileToken_hexPair {t : String} {b : Nat} (h : hexPair? t = some b) :
    compileToken t = some [Matcher.exact b] := by
  obtain ⟨c₁, c₂, hv, lv, hd, h₁, h₂, rfl⟩ := hexPair_eq h
  have hw := hexPair_not_wild h
  have hc₁ : ¬(c₁ = '{') := by
    rintro rfl
    simp [hexVal] at h₁
  unfold compileToken
  rw [if_neg hw]
  split
  · rename_i heq
    rw [hd] at heq
    simp at heq
  · rename_i x heq
    rw [hd] at heq
    simp at heq
  · rename_i a b' rest heq
    rw [hd] at heq
    obtain ⟨rfl, rfl, rfl⟩ : a = c₁ ∧ b' = c₂ ∧ rest = [] := by
      have heq' := heq.symm
      simp only [List.cons.injEq] at heq'
      exact ⟨heq'.1, heq'.2.1, heq'.2.2⟩
    rw [if_neg hc₁, h₁, h₂]
    simp

lemma tokMatcher_hexPair {t : String} {b : Nat} (h : hexPair? t = some b) :
    tokMatcher t = Matcher.exact b := by
  unfold tokMatcher
  rw [if_neg (hexPair_not_wild h), h]
  rfl

lemma compilePattern_map {toks : List String}
    (h : ∀ t ∈ toks, (hexPair? t).isSome ∨ t = "?" ∨ t = "??") :
    compilePattern toks = some (toks.map tokMatcher) := by
  induction toks with
  | nil => rfl
  | cons t ts ih =>
    have hct : compileToken t = some [tokMatcher t] := by
      rcases h t (by simp) with hhex | hw
      · obtain ⟨b, hb⟩ := Option.isSome_iff_exists.mp hhex
        rw [compileToken_hexPair hb, tokMatcher_hexPair hb]
      · rw [compileToken_wild hw]
        unfold tokMatcher
        rw [if_pos hw]
    have ih' := ih (fun u hu => h u (by simp [hu]))
    unfold compilePattern at ih' ⊢
    rw [List.mapM_cons, hct]
    cases hm : ts.mapM compileToken with
    | none => rw [hm] at ih'; simp at ih'
    | some ls =>
      rw [hm] at ih'
      simp only [Option.map_some', Option.some_inj] at ih'
      simp [ih']

lemma compilePattern_exact {toks : List String}
    (h : ∀ t ∈ toks, (hexPair? t).isSome) :
    compilePattern toks = some ((patBytes toks).map Matcher.exact) := by
  rw [compilePattern_map (fun t ht => Or.inl (h t ht))]
  unfold patBytes
  rw [List.map_map]
  congr 1
  apply List.map_congr_left
  intro t ht
  obtain ⟨b, hb⟩ := Option.isSome_iff_exists.mp (h t ht)
  rw [tokMatcher_hexPair hb, Function.comp_apply, hb]
  rfl

/-! ## Window lemmas -/

lemma getD_drop (buf : List Nat) (i j : Nat) :
    (buf.drop i).getD j 0 = buf.getD (i + j) 0 := by
  rw [List.getD_eq_getElem?_getD, List.getD_eq_getElem?_getD, List.getElem?_drop]

lemma matchesFront_drop_iff (ms : List Matcher) (buf : List Nat) (i : Nat)
    (hi : i ≤ buf.length) :
    matchesFront ms (buf.drop i) = true ↔ specMatchesAt ms buf i := by
  rw [matchesFront_iff_getD]
  unfold specMatchesAt
  rw [List.length_drop]
  apply and_congr
  · constructor <;> omega
  · constructor
    · intro hj j hlt
      have := hj j hlt
      rwa [getD_drop] at this
    · intro hj j hlt
      rw [getD_drop]
      exact hj j hlt

lemma occursAt_iff_matchesFront (pat buf : List Nat) (i : Nat) :
    occursAt pat buf i ↔
      i ≤ buf.length ∧ matchesFront (pat.map Matcher.exact) (buf.drop i) = true := by
  rw [matchesFront_exact]
  unfold occursAt
  rw [List.length_drop]
  constructor
  · rintro ⟨h1, h2⟩
    exact ⟨by omega, by omega, h2⟩
  · rintro ⟨h1, h2, h3⟩
    exact ⟨by omega, h3⟩

lemma occursAt_iff_spec (pat buf : List Nat) (i : Nat) :
    occursAt pat buf i ↔ specMatchesAt (pat.map Matcher.exact) buf i := by
  rw [occursAt_iff_matchesFront]
  constructor
  · rintro ⟨h1, h2⟩
    exact (matchesFront_drop_iff _ _ _ h1).mp h2
  · intro h
    have hi : i ≤ buf.length := by
      have h1 := h.1
      omega
    exact ⟨hi, (matchesFront_drop_iff _ _ _ hi).mpr h⟩

lemma find_pattern_spec (mem : Nat → Nat) (m : Module) (pattern : String)
    (ms : List Matcher) (hc : compilePattern (splitWs pattern) = some ms) :
    (∀ a, Module.find_pattern mem m pattern = some a ↔
        ∃ i, specMatchesAt ms (moduleSlice mem m) i ∧
          (∀ j < i, ¬ specMatchesAt ms (moduleSlice mem m) j) ∧ a = m.address + i) ∧
    (Module.find_pattern mem m pattern = none ↔
        ∀ i, ¬ specMatchesAt ms (moduleSlice mem m) i) := by
  unfold Module.find_pattern
  rw [hc]
  constructor
  · intro a
    rw [Option.map_eq_some']
    constructor
    · rintro ⟨r, hr, rfl⟩
      rw [scanFrom_eq_some] at hr
      obtain ⟨d, hd, hm, hmin, rfl⟩ := hr
      refine ⟨d, (matchesFront_drop_iff ms _ d hd).mp hm, ?_, by omega⟩
      intro j hj hs
      have hj' : j ≤ (moduleSlice mem m).length := by omega
      have hmf := (matchesFront_drop_iff ms _ j hj').mpr hs
      rw [hmin j hj] at hmf
      simp at hmf
    · rintro ⟨i, hi, hmin, rfl⟩
      have hiB : i ≤ (moduleSlice mem m).length := by
        have h1 := hi.1
        omega
      refine ⟨i, ?_, rfl⟩
      rw [scanFrom_eq_some]
      refine ⟨i, hiB, (matchesFront_drop_iff ms _ i hiB).mpr hi, ?_, by omega⟩
      intro e he
      have heB : e ≤ (moduleSlice mem m).length := by omega
      have hne : ¬ matchesFront ms ((moduleSlice mem m).drop e) = true :=
        fun hmf => hmin e he ((matchesFront_drop_iff ms _ e heB).mp hmf)
      rwa [Bool.not_eq_true] at hne
  · rw [Option.map_eq_none']
    rw [scanFrom_eq_none]
    constructor
    · intro hall i hs
      have hi : i ≤ (moduleSlice mem m).length := by
        have h1 := hs.1
        omega
      have hmf := (matchesFront_drop_iff ms _ i hi).mpr hs
      rw [hall i hi] at hmf
      simp at hmf
    · intro hall d hd
      have hne : ¬ matchesFront ms ((moduleSlice mem m).drop d) = true :=
        fun hmf => hall d ((matchesFront_drop_iff ms _ d hd).mp hmf)
      rwa [Bool.not_eq_true] at hne

/-! ## Claim theorems: pattern scanner -/

/-- Claim C1: for every byte buffer and every pattern whose tokens all denote
exact bytes (two hexadecimal digits, no wildcard tokens), `find_pattern`
returns some address iff the byte sequence the pattern denotes occurs in the
buffer, and the returned address is `base + i` for the lowest occurrence
offset `i` — the scan is left-to-right and returns the first match. -/
theorem c1_find_pattern_exact (mem : Nat → Nat) (m : Module) (pattern : String)
    (htok : ∀ t ∈ splitWs pattern, (hexPair? t).isSome) :
    (∀ a, Module.find_pattern mem m pattern = some a ↔
        ∃ i, occursAt (patBytes (splitWs pattern)) (moduleSlice mem m) i ∧
          (∀ j < i, ¬ occursAt (patBytes (splitWs pattern)) (moduleSlice mem m) j) ∧
          a = m.address + i) ∧
    (Module.find_pattern mem m pattern = none ↔
        ∀ i, ¬ occursAt (patBytes (splitWs pattern)) (moduleSlice mem m) i) := by
  have hs := find_pattern_spec mem m pattern _ (compilePattern_exact htok)
  simpa only [← occursAt_iff_spec] using hs

/-- Witness for C1: the wildcard-free pattern `01 02` over the buffer
`AA BB 01 02 CC DD` at base 16 is found at its lowest occurrence, offset 2. -/
theorem c1_witness : Module.find_pattern memA modA ("01 02") = some 18 :=
  ((c1_find_pattern_exact memA modA ("01 02") (by decide)).1 18).mpr
    ⟨2, by decide, by decide, by decide⟩

/-- Claim C5: for every buffer and every pattern of well-formed tokens that
contains wildcard tokens, `find_pattern` matches exactly the positions where
every non-wildcard byte equals the corresponding buffer byte and every
wildcard position matches any byte, returning the lowest matching position
(and `none` exactly when no position matches). -/
theorem c5_find_pattern_wildcards (mem : Nat → Nat) (m : Module) (pattern : String)
    (htok : ∀ t ∈ splitWs pattern, (hexPair? t).isSome ∨ t = "?" ∨ t = "??")
    (_hwild : ∃ t ∈ splitWs pattern, t = "?" ∨ t = "??") :
    (∀ a, Module.find_pattern mem m pattern = some a ↔
        ∃ i, specMatchesAt ((splitWs pattern).map tokMatcher) (moduleSlice mem m) i ∧
          (∀ j < i,
            ¬ specMatchesAt ((splitWs pattern).map tokMatcher) (moduleSlice mem m) j) ∧
          a = m.address + i) ∧
    (Module.find_pattern mem m pattern = none ↔
        ∀ i, ¬ specMatchesAt ((splitWs pattern).map tokMatcher) (moduleSlice mem m) i) :=
  find_pattern_spec mem m pattern _ (compilePattern_map htok)

lemma iterMax?_spec : ∀ (l : List Nat) (v : Nat), iterMax? l = some v →
    v ∈ l ∧ ∀ x ∈ l, x ≤ v
  | [], v => by
    intro h
    simp [iterMax?] at h
  | a :: as, v => by
    intro h
    rw [iterMax?] at h
    cases hm : iterMax? as with
    | none =>
      rw [hm] at h
      obtain rfl := Option.some_inj.mp h
      cases has : as with
      | nil => simp
      | cons b bs =>
        rw [has, iterMax?] at hm
        cases h' : iterMax? bs with
        | none =>
          rw [h'] at hm
          simp at hm
        | some m' =>
          rw [h'] at hm
          simp at hm
    | some m =>
      rw [hm] at h
      obtain rfl := Option.some_inj.mp h
      obtain ⟨hmem, hle⟩ := iterMax?_spec as m hm
      constructor
      · rcases Nat.le_total a m with hc | hc
        · simp [Nat.max_eq_right hc, hmem]
        · simp [Nat.max_eq_left hc]
      · intro x hx
        rcases List.mem_cons.mp hx with rfl | hx'
        · exact Nat.le_max_left _ _
        · exact Nat.le_trans (hle x hx') (Nat.le_max_right _ _)

lemma iterMax?_cons_isSome (a : Nat) (as : List Nat) : (iterMax? (a :: as)).isSome := by
  rw [iterMax?]
  cases iterMax? as <;> rfl

lemma land_mul_two_pow_dvd (x y k : Nat) : 2 ^ k ∣ x &&& (2 ^ k * y) := by
  apply Nat.dvd_of_mod_eq_zero
  rw [← Nat.and_pow_two_sub_one_eq_mod]
  rw [Nat.land_assoc]
  rw [Nat.and_pow_two_sub_one_eq_mod]
  rw [Nat.mul_mod_right]
  exact Nat.and_zero x

lemma alignPage_dvd {ps : Nat} (k : Nat) (hps : ps = 2 ^ k) (hk : k ≤ 64) (a : Nat) :
    ps ∣ alignPage a ps := by
  subst hps
  unfold alignPage two64
  have h1 : (2 : Nat) ^ k ≤ 2 ^ 64 := Nat.pow_le_pow_right (by omega) hk
  have h5 : (0 : Nat) < 2 ^ k := Nat.two_pow_pos k
  have h6 : (0 : Nat) < 2 ^ (64 - k) := Nat.two_pow_pos (64 - k)
  have h2 : ((2 ^ k - 1) % 2 ^ 64) = 2 ^ k - 1 := Nat.mod_eq_of_lt (by omega)
  rw [h2]
  have h4 : (2 : Nat) ^ 64 = 2 ^ k * 2 ^ (64 - k) := by
    rw [← pow_add]
    congr 1
    omega
  have h3 : (2 ^ 64 - 1) - (2 ^ k - 1) = 2 ^ k * (2 ^ (64 - k) - 1) := by
    have h7 : (2 : Nat) ^ k * (2 ^ (64 - k) - 1) = 2 ^ k * 2 ^ (64 - k) - 2 ^ k :=
      Nat.mul_pred (2 ^ k) (2 ^ (64 - k))
    rw [h7, ← h4]
    omega
  rw [h3]
  exact land_mul_two_pow_dvd _ _ k

lemma Module.new_size_dvd {info : DlPhdrInfo} {ps : Nat} {m : Module} (k : Nat)
    (hps : ps = 2 ^ k) (hk : k ≤ 64) (h : Module.new info ps = some m) :
    ps ∣ m.size := by
  unfold Module.new at h
  split at h
  · simp at h
  · split at h
    · simp at h
    · rename_i sz hsz
      obtain rfl := Option.some_inj.mp h
      obtain ⟨hmem, -⟩ := iterMax?_spec _ _ hsz
      obtain ⟨e, he, hee⟩ := List.mem_map.mp hmem
      show ps ∣ sz
      rw [← hee]
      exact alignPage_dvd k hps hk _

/-! ## Claim theorems: module registry -/

/-- Claim C7: when the page size is a power of two (as the source's own
debug assertion at main.rs:168 requires), every `Module` that enumeration
produces has a size that is an exact multiple of the page size: the mask
`& !(pagesize - 1)` of main.rs:134 clears the low bits of every candidate,
and the maximum is one of the candidates. -/
theorem c7_size_page_aligned (infos : List DlPhdrInfo) (ps k : Nat)
    (hps : ps = 2 ^ k) (hk : k ≤ 64) :
    ∀ m ∈ enumerateModules ps infos [], ps ∣ m.size := by
  have key : ∀ (rest : List DlPhdrInfo) (acc : List Module),
      (∀ m ∈ acc, ps ∣ m.size) → ∀ m ∈ enumerateModules ps rest acc, ps ∣ m.size := by
    intro rest
    induction rest with
    | nil =>
      intro acc hacc
      simpa [enumerateModules] using hacc
    | cons info rest' ih =>
      intro acc hacc m hm
      simp only [enumerateModules] at hm
      revert hm
      cases hn : Module.new info ps with
      | none => exact fun hm => hacc m hm
      | some mod =>
        intro hm
        refine ih (mod :: acc) ?_ m hm
        intro m' hm'
        rcases List.mem_cons.mp hm' with rfl | hm'
        · exact Module.new_size_dvd k hps hk hn
        · exact hacc m' hm'
  exact key infos [] (by simp)

/-- Witness for C7: one enumerated image with a segment ending at 0x1800 and
page size 4096 = 2^12 yields the page-aligned size 0x2000, divisible by the
page size. -/
theorem c7_witness : (4096 : Nat) ∣ (8192 : Nat) :=
  c7_size_page_aligned [infoGood] 4096 12 (by decide) (by decide) modGood (by decide)

/-- Claim C4 (amended): an image that `Module::new` cannot resolve (zero
program headers or an unreadable name) makes the callback return 1, which
aborts `dl_iterate_phdr`: the images before it are kept, the images after it
are never visited. Enumeration still returns (with the partial list), but the
unresolvable image is not merely skipped. -/
theorem c4_abort_on_unresolvable (ps : Nat) (pre post : List DlPhdrInfo)
    (bad : DlPhdrInfo) (acc : List Module) (hbad : Module.new bad ps = none) :
    enumerateModules ps (pre ++ bad :: post) acc = enumerateModules ps pre acc := by
  induction pre generalizing acc with
  | nil =>
    rw [List.nil_append]
    simp only [enumerateModules]
    rw [hbad]
  | cons info pre' ih =>
    rw [List.cons_append]
    simp only [enumerateModules]
    cases hn : Module.new info ps with
    | none => rfl
    | some mod => exact ih (mod :: acc)

/-- Witness for C4: with a resolvable image before and after the unresolvable
one, enumeration of the whole list equals enumeration of the prefix alone —
the image after the bad one is never visited. -/
theorem c4_witness :
    enumerateModules 4096 ([infoGood] ++ infoBad :: [infoGood2]) [] =
      enumerateModules 4096 [infoGood] [] :=
  c4_abort_on_unresolvable 4096 [infoGood] [infoGood2] infoBad [] (by decide)

/-- Counterexample for C4: `infoBad` has zero program headers. The claim says
it is skipped and every other resolvable image is still returned; the code
instead aborts the whole enumeration, so the perfectly resolvable `infoGood`
that comes after it is absent from the (empty) result. -/
theorem c4_counterexample :
    enumerateModules 4096 [infoBad, infoGood] [] = [] ∧
    Module.new infoGood 4096 = some modGood ∧
    modGood ∉ enumerateModules 4096 [infoBad, infoGood] [] :=
  ⟨by decide, by decide, by decide⟩

/-- Claim C8 (amended): for an image with a readable name and at least one
program header, the module's size is the maximum over ALL program-header
segments — loadable or not, the source never reads `p_type` — of the
page-aligned end `align((p_vaddr + p_memsz) mod 2^64)`. -/
theorem c8_size_max_all_segments (info : DlPhdrInfo) (ps : Nat) (nm : String)
    (hname : info.dlpi_name = some nm) (hne : info.dlpi_phdrs ≠ []) :
    ∃ m, Module.new info ps = some m ∧ m.address = info.dlpi_addr ∧ m.name = nm ∧
      m.size ∈ info.dlpi_phdrs.map (fun e => alignPage ((e.p_vaddr + e.p_memsz) % two64) ps) ∧
      ∀ e ∈ info.dlpi_phdrs, alignPage ((e.p_vaddr + e.p_memsz) % two64) ps ≤ m.size := by
  unfold Module.new
  rw [hname]
  cases hsz : iterMax? (info.dlpi_phdrs.map
      (fun e => alignPage ((e.p_vaddr + e.p_memsz) % two64) ps)) with
  | none =>
    exfalso
    cases hl : info.dlpi_phdrs with
    | nil => exact hne hl
    | cons e es =>
      rw [hl, List.map_cons] at hsz
      have hs := iterMax?_cons_isSome (alignPage ((e.p_vaddr + e.p_memsz) % two64) ps)
        (es.map (fun e => alignPage ((e.p_vaddr + e.p_memsz) % two64) ps))
      rw [hsz] at hs
      simp at hs
  | some sz =>
    obtain ⟨hmem, hle⟩ := iterMax?_spec _ _ hsz
    refine ⟨⟨info.dlpi_addr, sz, nm⟩, rfl, rfl, rfl, hmem, ?_⟩
    intro e he
    exact hle _ (List.mem_map_of_mem _ he)

/-- Witness for C8: the image `infoGood` resolves to a module whose size is
the maximum of the aligned segment ends. -/
theorem c8_witness :
    ∃ m, Module.new infoGood 4096 = some m ∧ m.address = infoGood.dlpi_addr ∧
      m.name = "libgood.so" ∧
      m.size ∈ infoGood.dlpi_phdrs.map
        (fun e => alignPage ((e.p_vaddr + e.p_memsz) % two64) 4096) ∧
      ∀ e ∈ infoGood.dlpi_phdrs,
        alignPage ((e.p_vaddr + e.p_memsz) % two64) 4096 ≤ m.size :=
  c8_size_max_all_segments infoGood 4096 ("libgood.so") rfl (by decide)

/-- Counterexample for C8: on `infoMixed`, whose non-loadable segment
(p_type 2) ends past every loadable one, the code's size (0x6000, over all
segments) differs from the spec's loadable-only formula (0x1000). -/
theorem c8_counterexample :
    (Module.new infoMixed 4096).map (fun m => m.size) = some 0x6000 ∧
    specLoadableSize infoMixed 4096 = some 0x1000 ∧
    (0x6000 : Nat) ≠ 0x1000 :=
  ⟨by decide, by decide, by decide⟩

/-! ## Structure walker lemmas -/

lemma chain_twocycle_none (H : Heap) (a b : Nat) (ha : a ≠ 0) (hb : b ≠ 0)
    (hab : (H.classes a).m_pNext = b) (hba : (H.classes b).m_pNext = a) :
    ∀ fuel, classChain H fuel a = none ∧ classChain H fuel b = none := by
  obtain ⟨a', rfl⟩ := Nat.exists_eq_succ_of_ne_zero ha
  obtain ⟨b', rfl⟩ := Nat.exists_eq_succ_of_ne_zero hb
  intro fuel
  induction fuel with
  | zero => exact ⟨rfl, rfl⟩
  | succ fuel ih =>
    constructor
    · show (classChain H fuel (H.classes (a' + 1)).m_pNext).map
        (fun rest => (a' + 1) :: rest) = none
      rw [hab, ih.2]
      rfl
    · show (classChain H fuel (H.classes (b' + 1)).m_pNext).map
        (fun rest => (b' + 1) :: rest) = none
      rw [hba, ih.1]
      rfl

lemma filterMap_some_eq_map {α β : Type} (f : α → β) (l : List α) :
    l.filterMap (fun x => some (f x)) = l.map f := by
  induction l with
  | nil => rfl
  | cons x xs ih => simp [List.filterMap_cons, ih]

lemma tablePropRefs_single (H : Heap) (t : Nat)
    (hbase : (H.tables t).m_pProps ≠ 0) (hn : (H.tables t).m_nProps = 1) :
    tablePropRefs H t = [H.props ((H.tables t).m_pProps)] := by
  unfold tablePropRefs
  show (List.range (H.tables t).m_nProps.toNat).filterMap
      (fun i => if (H.tables t).m_pProps + i = 0 then none
        else some (H.props ((H.tables t).m_pProps + i))) = _
  rw [hn]
  rw [show Int.toNat 1 = 1 from rfl, show List.range 1 = [0] by decide]
  rw [List.filterMap_cons]
  rw [if_neg (by omega)]
  rfl

lemma render_twocycle_none (H : Heap) (t₁ t₂ : Nat) (h1 : t₁ ≠ 0) (h2 : t₂ ≠ 0)
    (hp1 : (H.tables t₁).m_pProps ≠ 0) (hn1 : (H.tables t₁).m_nProps = 1)
    (hc1 : (H.props ((H.tables t₁).m_pProps)).m_pDataTable = t₂)
    (hp2 : (H.tables t₂).m_pProps ≠ 0) (hn2 : (H.tables t₂).m_nProps = 1)
    (hc2 : (H.props ((H.tables t₂).m_pProps)).m_pDataTable = t₁) :
    ∀ fuel, renderTable H fuel t₁ = none ∧ renderTable H fuel t₂ = none := by
  intro fuel
  induction fuel with
  | zero => exact ⟨rfl, rfl⟩
  | succ fuel ih =>
    constructor
    · show renderPropsAux H (fun a => renderTable H fuel a) (tablePropRefs H t₁) = none
      rw [tablePropRefs_single H t₁ hp1 hn1]
      rw [renderPropsAux]
      rw [hc1, if_neg h2, ih.2]
      rfl
    · show renderPropsAux H (fun a => renderTable H fuel a) (tablePropRefs H t₂) = none
      rw [tablePropRefs_single H t₂ hp2 hn2]
      rw [renderPropsAux]
      rw [hc2, if_neg h1, ih.1]
      rfl

lemma renderPropsAux_scalars (H : Heap) (child : Nat → Option (List RProp)) :
    ∀ (ps : List RecvPropM), (∀ p ∈ ps, p.m_pDataTable = 0) →
      renderPropsAux H child ps =
        some (ps.map (fun p => RProp.scalar p.m_pVarName p.m_Offset))
  | [], _ => rfl
  | p :: ps, h => by
    have hp := h p (by simp)
    have hps := renderPropsAux_scalars H child ps (fun q hq => h q (by simp [hq]))
    rw [renderPropsAux]
    rw [if_pos hp]
    show (renderPropsAux H child ps).map
      (fun rest => RProp.scalar p.m_pVarName p.m_Offset :: rest) = _
    rw [hps]
    rfl

lemma tablePropRefs_full (H : Heap) (t : Nat) (hbase : (H.tables t).m_pProps ≠ 0) :
    tablePropRefs H t = (List.range (H.tables t).m_nProps.toNat).map
      (fun i => H.props ((H.tables t).m_pProps + i)) := by
  unfold tablePropRefs
  show (List.range (H.tables t).m_nProps.toNat).filterMap
      (fun i => if (H.tables t).m_pProps + i = 0 then none
        else some (H.props ((H.tables t).m_pProps + i))) = _
  have hfn : (fun i => if (H.tables t).m_pProps + i = 0 then none
      else some (H.props ((H.tables t).m_pProps + i))) =
      fun i => some (H.props ((H.tables t).m_pProps + i)) := by
    funext i
    rw [if_neg (by omega)]
  rw [hfn, filterMap_some_eq_map]

/-! ## Claim theorems: structure walker -/

/-- Claim C2 (amended): no traversal performed by the walker is bounded.
Following the descriptor list's `next` pointers has no cycle guard, so a
cyclic list (a → b → a, including a self-loop) is iterated forever (the
iteration completes at no fuel), and the recursive `Debug` rendering of child
property tables carries no depth bound, so a self-referential child-table
pointer A → B → A recurses forever (the rendering completes at no fuel). -/
theorem c2_unbounded_traversal :
    (∀ (H : Heap) (a b : Nat), a ≠ 0 → b ≠ 0 →
      (H.classes a).m_pNext = b → (H.classes b).m_pNext = a →
      neverCompletesChain H a) ∧
    (∀ (H : Heap) (t₁ t₂ : Nat), t₁ ≠ 0 → t₂ ≠ 0 →
      (H.tables t₁).m_pProps ≠ 0 → (H.tables t₁).m_nProps = 1 →
      (H.props ((H.tables t₁).m_pProps)).m_pDataTable = t₂ →
      (H.tables t₂).m_pProps ≠ 0 → (H.tables t₂).m_nProps = 1 →
      (H.props ((H.tables t₂).m_pProps)).m_pDataTable = t₁ →
      neverCompletesTable H t₁) := by
  constructor
  · intro H a b ha hb hab hba fuel
    exact (chain_twocycle_none H a b ha hb hab hba fuel).1
  · intro H t₁ t₂ h1 h2 hp1 hn1 hc1 hp2 hn2 hc2 fuel
    exact (render_twocycle_none H t₁ t₂ h1 h2 hp1 hn1 hc1 hp2 hn2 hc2 fuel).1

/-- Witness for C2: on the concrete heap `heapCycW`, the self-successor class
at 5 is iterated forever and the mutually recursive tables 20 ⇄ 21 render
forever. -/
theorem c2_witness :
    neverCompletesChain heapCycW 5 ∧ neverCompletesTable heapCycW 20 :=
  ⟨c2_unbounded_traversal.1 heapCycW 5 5 (by decide) (by decide) rfl rfl,
   c2_unbounded_traversal.2 heapCycW 20 21 (by decide) (by decide) (by decide)
     rfl rfl (by decide) rfl rfl⟩

/-- Counterexample for C2: on `heapCyc` the class list cycles 1 → 2 → 1 and
the child tables cycle A → B → A (10 → 11 → 10). The claim says traversal
stops at a configured depth bound; instead neither the iteration nor the
rendering completes at any fuel — the source loops indefinitely. -/
theorem c2_counterexample :
    neverCompletesChain heapCyc 1 ∧ neverCompletesTable heapCyc 10 :=
  ⟨fun fuel => (chain_twocycle_none heapCyc 1 2 (by decide) (by decide) rfl rfl fuel).1,
   fun fuel => (render_twocycle_none heapCyc 10 11 (by decide) (by decide) (by decide)
     rfl rfl (by decide) rfl rfl fuel).1⟩

/-- Claim C3 (amended): walking a well-formed three-node list whose nodes all
have a null property-table pointer visits the 3 nodes in list-traversal order
(not reversed), but returns 0 descriptors: the collection pipeline filters
out every descriptor whose `m_pRecvTable` is null. -/
theorem c3_walk_filters_tableless (H : Heap) (a b c : Nat)
    (ha : a ≠ 0) (hb : b ≠ 0) (hc : c ≠ 0)
    (hA : (H.classes a).m_pNext = b) (hAt : (H.classes a).m_pRecvTable = 0)
    (hB : (H.classes b).m_pNext = c) (hBt : (H.classes b).m_pRecvTable = 0)
    (hC : (H.classes c).m_pNext = 0) (hCt : (H.classes c).m_pRecvTable = 0) :
    classChain H 3 a = some [a, b, c] ∧ collectClasses H 3 a = some [] := by
  obtain ⟨a', rfl⟩ := Nat.exists_eq_succ_of_ne_zero ha
  obtain ⟨b', rfl⟩ := Nat.exists_eq_succ_of_ne_zero hb
  obtain ⟨c', rfl⟩ := Nat.exists_eq_succ_of_ne_zero hc
  have s3 : classChain H 1 (c' + 1) = some [c' + 1] := by
    show (classChain H 0 (H.classes (c' + 1)).m_pNext).map
      (fun rest => (c' + 1) :: rest) = _
    rw [hC]
    rfl
  have s2 : classChain H 2 (b' + 1) = some [b' + 1, c' + 1] := by
    show (classChain H 1 (H.classes (b' + 1)).m_pNext).map
      (fun rest => (b' + 1) :: rest) = _
    rw [hB, s3]
    rfl
  have hchain : classChain H 3 (a' + 1) = some [a' + 1, b' + 1, c' + 1] := by
    show (classChain H 2 (H.classes (a' + 1)).m_pNext).map
      (fun rest => (a' + 1) :: rest) = _
    rw [hA, s2]
    rfl
  refine ⟨hchain, ?_⟩
  unfold collectClasses
  rw [hchain]
  simp only [Option.map_some', Option.some_inj, List.filterMap_cons, List.filterMap_nil]
  rw [hAt, hBt, hCt]
  rfl

/-- Witness for C3: the concrete three-node heap `heap3` is visited in order
1, 2, 3 and yields 0 collected descriptors. -/
theorem c3_witness :
    classChain heap3 3 1 = some [1, 2, 3] ∧ collectClasses heap3 3 1 = some [] :=
  c3_walk_filters_tableless heap3 1 2 3 (by decide) (by decide) (by decide)
    rfl rfl rfl rfl rfl rfl

/-- Counterexample for C3: walking the well-formed three-node list `heap3`
(all property-table pointers null) returns 0 descriptors, not the 3 the claim
states — the pipeline's final `filter_map` drops every node whose
`m_pRecvTable` is null. -/
theorem c3_counterexample :
    (collectClasses heap3 3 1).map List.length = some 0 ∧
    (collectClasses heap3 3 1).map List.length ≠ some 3 :=
  ⟨by decide, by decide⟩

/-- Claim C6 (amended): the walker performs no validation of a table's
declared count: rendering trusts `m_nProps` and decodes exactly that many
property slots (when the array pointer is non-null and the entries are
scalars), reading past the table's actual storage when the count is larger,
with no abort and no warning; sibling tables are rendered independently. -/
theorem c6_trusts_declared_count (H : Heap) (t fuel : Nat)
    (hbase : (H.tables t).m_pProps ≠ 0)
    (hscalar : ∀ i < (H.tables t).m_nProps.toNat,
      (H.props ((H.tables t).m_pProps + i)).m_pDataTable = 0) :
    (renderTable H (fuel + 1) t).map List.length =
      some (H.tables t).m_nProps.toNat := by
  have hcond : ∀ p ∈ (List.range (H.tables t).m_nProps.toNat).map
      (fun i => H.props ((H.tables t).m_pProps + i)), p.m_pDataTable = 0 := by
    intro p hp
    obtain ⟨i, hi, rfl⟩ := List.mem_map.mp hp
    exact hscalar i (List.mem_range.mp hi)
  show (renderPropsAux H (fun a => renderTable H fuel a)
    (tablePropRefs H t)).map List.length = some (H.tables t).m_nProps.toNat
  rw [tablePropRefs_full H t hbase, renderPropsAux_scalars H _ _ hcond]
  simp

/-- Witness for C6: table 10 of `heap6` declares 4 properties and the walker
renders exactly 4. -/
theorem c6_witness : (renderTable heap6 1 10).map List.length = some 4 :=
  c6_trusts_declared_count heap6 10 0 (by decide) (by decide)

/-- Counterexample for C6: in `heap6`, table 10 declares 4 properties but its
actual storage is the two slots 100-101 — slots 102-103 belong to its sibling
table 11. The claim says decoding of table 10's subtree is aborted; the code
instead decodes all 4 declared entries (including the sibling's two) with no
abort and no warning, while the sibling still renders its own 2. -/
theorem c6_counterexample :
    (renderTable heap6 1 10).map List.length = some 4 ∧
    (renderTable heap6 1 11).map List.length = some 2 ∧
    (renderTable heap6 1 10).map List.length ≠ some 2 :=
  ⟨by decide, by decide, by decide⟩

/-- Claim C9 (amended): the walk output is a vector of references (addresses)
into host memory, not an owned snapshot: rendering dereferences the heap at
render time, so its result is a function of both the walk output and the live
heap — two heaps on which the walk reads identical data (same chain, same
table pointers) render differently when a property name's bytes differ. -/
theorem c9_render_reads_heap :
    renderAll heap9a 1 [(1, 10)] = some [(1, [RProp.scalar ("m_iHealth") 42])] ∧
    renderAll heap9b 1 [(1, 10)] = some [(1, [RProp.scalar ("m_iArmor") 42])] ∧
    collectClasses heap9a 2 1 = some [(1, 10)] ∧
    collectClasses heap9b 2 1 = some [(1, 10)] ∧
    topNames (renderAll heap9a 1 [(1, 10)]) ≠ topNames (renderAll heap9b 1 [(1, 10)]) :=
  ⟨rfl, rfl, by decide, by decide, by decide⟩

/-- Counterexample for C9: `heap9a` and `heap9b` differ only in the bytes of
the property name at slot 100, which the walk never reads: the walk outputs
are equal. Yet rendering the same walk output against the two heaps differs —
so rendering reads host memory after the walk, contradicting the claim that
the output is a pure, owned snapshot. -/
theorem c9_counterexample :
    collectClasses heap9a 2 1 = collectClasses heap9b 2 1 ∧
    renderAll heap9a 1 [(1, 10)] ≠ renderAll heap9b 1 [(1, 10)] := by
  refine ⟨by decide, ?_⟩
  intro h
  have ha : renderAll heap9a 1 [(1, 10)] =
      some [(1, [RProp.scalar ("m_iHealth") 42])] := rfl
  have hb : renderAll heap9b 1 [(1, 10)] =
      some [(1, [RProp.scalar ("m_iArmor") 42])] := rfl
  rw [ha, hb] at h
  simp at h

/-- Witness for C5: the spec's end-to-end example. `AA BB ? ? CC` matches
`AA BB 01 02 CC DD` at offset 0 (address 16 = the module base) and finds no
match in `AA BB 01 02 CE`. -/
theorem c5_witness :
    Module.find_pattern memA modA ("AA BB ? ? CC") = some 16 ∧
    Module.find_pattern memB modB ("AA BB ? ? CC") = none := by
  have h1 := c5_find_pattern_wildcards memA modA ("AA BB ? ? CC") (by decide) (by decide)
  have h2 := c5_find_pattern_wildcards memB modB ("AA BB ? ? CC") (by decide) (by decide)
  refine ⟨(h1.1 16).mpr ⟨0, by decide, by decide, by decide⟩, h2.2.mpr ?_⟩
  intro i
  by_cases hi : i ≤ 5
  · interval_cases i <;> decide
  · intro hs
    have hlen : (moduleSlice memB modB).length = 5 := by decide
    have hms : (((splitWs ("AA BB ? ? CC")).map tokMatcher)).length = 5 := by decide
    have h1' := hs.1
    rw [hlen, hms] at h1'
    omega

end Netvar
